import Mathlib

/-!
A shallow embedding of the double-entry ledger and approval-workflow core of
the finance-ledger-service repository, together with theorems checking the
natural-language specification against the embedded code.

Sources embedded:
* `src/models/Account.js` — `accountSchema.methods.updateBalance` (balance
  mutation per the normal-balance-side rule).
* `src/models/Transaction.js` — the schema's `approve` / `reject` instance
  methods (plain field mutation, no guards).
* `src/handles/permissions.js` — `isManager`.
* `src/constants/roles.js` — `ROLE_HIERARCHY`, `isRoleHigher`.
* `src/utils/doubleEntry.js` — `reconcileAccounts` (per-account part).
* `src/utils/ledger.js` — `aggregateByPeriod`.

The engine-level approval workflow (`src/utils/approvalWorkflow.js`:
`canApprove`, `processApproval`) is planned in the repository's plan but not
present in the source tree; those definitions are modelled from the spec and
are marked as such in their doc comments.

JavaScript numbers are modelled as `Int` (the spec's amounts are integral and
only sign and additive structure matter to the claims); Mongo documents are
records; a collection is an association list from id to document; `Date.now()`
timestamps are `Nat` parameters supplied by the caller.
-/

namespace FinanceLedger

/-- The five kinds in `accountSchema.accountType`'s enum. -/
inductive AccountType where
  | asset
  | liability
  | equity
  | revenue
  | expense
deriving DecidableEq, Repr

/-- An account document (`src/models/Account.js`), the fields the ledger
core reads and writes: code, type, signed balance, update timestamp. -/
structure Account where
  accountCode : String
  accountType : AccountType
  balance : Int
  updatedAt : Nat
deriving DecidableEq, Repr

/-- `accountSchema.methods.updateBalance(amount, operation)` from
`src/models/Account.js` lines 73–95: for `operation === "debit"`, asset and
expense accounts gain `amount` and all other types lose it; for
`operation === "credit"` the opposite; any other operation string falls
through both branches and mutates nothing. The method then writes
`updatedAt` and saves. It performs no validation of `amount` and no
account lookup (it is an instance method on an already-loaded document). -/
def Account.updateBalance (a : Account) (amount : Int) (operation : String)
    (now : Nat) : Account :=
  let a :=
    if operation = "debit" then
      if a.accountType = AccountType.asset ∨ a.accountType = AccountType.expense then
        { a with balance := a.balance + amount }
      else
        { a with balance := a.balance - amount }
    else if operation = "credit" then
      if a.accountType = AccountType.asset ∨ a.accountType = AccountType.expense then
        { a with balance := a.balance - amount }
      else
        { a with balance := a.balance + amount }
    else
      a
  { a with updatedAt := now }

/-- The two posting directions of the spec's `applyEntry`. -/
inductive Direction where
  | debit
  | credit
deriving DecidableEq, Repr

/-- The operation string the source uses for a posting direction. -/
def Direction.toOperation : Direction → String
  | Direction.debit => "debit"
  | Direction.credit => "credit"

/-- Stated from the spec's normal-balance-side rule (spec §3): for
asset/expense accounts a debit increases the balance by the amount and a
credit decreases it; for liability/equity/revenue accounts the reverse.
This is the comparison definition the theorems check the source against. -/
def normalSignedEffect (t : AccountType) (d : Direction) (n : Int) : Int :=
  match t, d with
  | AccountType.asset, Direction.debit => n
  | AccountType.expense, Direction.debit => n
  | AccountType.asset, Direction.credit => -n
  | AccountType.expense, Direction.credit => -n
  | _, Direction.debit => -n
  | _, Direction.credit => n

theorem updateBalance_eq_add_normalSignedEffect (a : Account) (n : Int)
    (d : Direction) (now : Nat) :
    (a.updateBalance n d.toOperation now).balance
      = a.balance + normalSignedEffect a.accountType d n := by
  cases d <;> cases h : a.accountType <;>
    simp [Account.updateBalance, Direction.toOperation, normalSignedEffect, h,
      sub_eq_add_neg]

/-- Claim C3: for every account and every amount `n > 0`, `updateBalance`
obeys the normal-balance rule: on asset/expense accounts a debit adds `n`
and a credit subtracts `n`; on liability/equity/revenue accounts a debit
subtracts `n` and a credit adds `n`. -/
theorem updateBalance_normal_balance_rule (a : Account) (n : Int) (now : Nat)
    (hn : 0 < n) :
    ((a.accountType = AccountType.asset ∨ a.accountType = AccountType.expense) →
      (a.updateBalance n "debit" now).balance = a.balance + n ∧
      (a.updateBalance n "credit" now).balance = a.balance - n) ∧
    ((a.accountType = AccountType.liability ∨ a.accountType = AccountType.equity ∨
        a.accountType = AccountType.revenue) →
      (a.updateBalance n "debit" now).balance = a.balance - n ∧
      (a.updateBalance n "credit" now).balance = a.balance + n) := by
  constructor
  · intro h
    constructor
    · simpa [Direction.toOperation, normalSignedEffect] using
        updateBalance_eq_add_normalSignedEffect a n Direction.debit now
          |>.trans (by rcases h with h | h <;> simp [normalSignedEffect, h])
    · simpa [Direction.toOperation, sub_eq_add_neg] using
        updateBalance_eq_add_normalSignedEffect a n Direction.credit now
          |>.trans (by rcases h with h | h <;> simp [normalSignedEffect, h])
  · intro h
    constructor
    · simpa [Direction.toOperation, sub_eq_add_neg] using
        updateBalance_eq_add_normalSignedEffect a n Direction.debit now
          |>.trans (by rcases h with h | h | h <;> simp [normalSignedEffect, h])
    · simpa [Direction.toOperation] using
        updateBalance_eq_add_normalSignedEffect a n Direction.credit now
          |>.trans (by rcases h with h | h | h <;> simp [normalSignedEffect, h])

theorem updateBalance_normal_balance_rule_witness :
    (0 : Int) < 7 ∧
    (((AccountType.asset = AccountType.asset ∨
          AccountType.asset = AccountType.expense) →
        ((Account.mk "1000" AccountType.asset 100 0).updateBalance 7 "debit" 1).balance
            = (100 : Int) + 7 ∧
        ((Account.mk "1000" AccountType.asset 100 0).updateBalance 7 "credit" 1).balance
            = (100 : Int) - 7) ∧
      ((AccountType.asset = AccountType.liability ∨
          AccountType.asset = AccountType.equity ∨
          AccountType.asset = AccountType.revenue) →
        ((Account.mk "1000" AccountType.asset 100 0).updateBalance 7 "debit" 1).balance
            = (100 : Int) - 7 ∧
        ((Account.mk "1000" AccountType.asset 100 0).updateBalance 7 "credit" 1).balance
            = (100 : Int) + 7)) :=
  ⟨by decide,
    updateBalance_normal_balance_rule (Account.mk "1000" AccountType.asset 100 0)
      7 1 (by decide)⟩

/-- Claim C10: for every account, every amount, and every operation string
other than `"debit"` and `"credit"`, `updateBalance` falls through both
branches: no error is raised (the function is total) and the only field it
writes is `updatedAt`. -/
theorem updateBalance_unknown_operation_noop (a : Account) (n : Int)
    (op : String) (now : Nat) (hd : op ≠ "debit") (hc : op ≠ "credit") :
    a.updateBalance n op now = { a with updatedAt := now } := by
  simp [Account.updateBalance, hd, hc]

theorem updateBalance_unknown_operation_noop_witness :
    ("transfer" ≠ "debit" ∧ "transfer" ≠ "credit") ∧
    (Account.mk "2000" AccountType.liability 40 0).updateBalance 9 "transfer" 5
      = { Account.mk "2000" AccountType.liability 40 0 with updatedAt := 5 } :=
  ⟨⟨by decide, by decide⟩,
    updateBalance_unknown_operation_noop
      (Account.mk "2000" AccountType.liability 40 0) 9 "transfer" 5
      (by decide) (by decide)⟩

/-- Claim C5, counterexample: `updateBalance` contains no amount validation.
On the concrete asset account with stored balance `10`, applying a debit of
`-5` completes (the method is total, so no `ValidationError` is raised) and
changes the stored balance to `5`, contradicting the claim that an amount
`≤ 0` fails and leaves the balance unchanged. -/
theorem updateBalance_nonpositive_counterexample :
    ((Account.mk "1000" AccountType.asset 10 0).updateBalance (-5) "debit" 1).balance
        = (5 : Int) ∧
    ((Account.mk "1000" AccountType.asset 10 0).updateBalance (-5) "debit" 1).balance
        ≠ (10 : Int) := by
  constructor <;> decide

/-- Claim C5, amended: `updateBalance` performs no amount validation and no
account lookup: for every amount `n ≤ 0` and either direction it completes
without error and still applies the signed delta of the normal-balance rule
(so the stored balance changes by the signed effect of `n`, which leaves it
unchanged only when `n = 0`); account absence cannot fail at this level
because the method runs on an already-loaded account document. -/
theorem updateBalance_nonpositive_applies_delta (a : Account) (n : Int)
    (d : Direction) (now : Nat) (hn : n ≤ 0) :
    (a.updateBalance n d.toOperation now).balance
      = a.balance + normalSignedEffect a.accountType d n :=
  updateBalance_eq_add_normalSignedEffect a n d now

theorem updateBalance_nonpositive_applies_delta_witness :
    (-5 : Int) ≤ 0 ∧
    ((Account.mk "3000" AccountType.equity 20 0).updateBalance (-5)
        Direction.debit.toOperation 2).balance
      = (20 : Int) + normalSignedEffect AccountType.equity Direction.debit (-5) :=
  ⟨by decide,
    updateBalance_nonpositive_applies_delta
      (Account.mk "3000" AccountType.equity 20 0) (-5) Direction.debit 2
      (by decide)⟩

/-- `ROLES` from `src/constants/roles.js`: the closed set of role names. -/
def ROLES : List String := ["Admin", "BranchManager", "Employee", "Vendor"]

/-- `ROLE_HIERARCHY` from `src/constants/roles.js`: roles with higher index
have more permissions. -/
def ROLE_HIERARCHY : List String :=
  ["Vendor", "Employee", "BranchManager", "Admin"]

/-- JavaScript's `Array.prototype.indexOf` on a list of strings: the index of
the first occurrence, or `-1` when absent. -/
def jsIndexOf : List String → String → Int
  | [], _ => -1
  | a :: rest, x =>
    if a = x then 0
    else
      let r := jsIndexOf rest x
      if r = -1 then -1 else r + 1

/-- `isRoleHigher(role1, role2)` from `src/constants/roles.js` lines 34–43:
look both roles up in `ROLE_HIERARCHY`; if either is absent return false,
otherwise compare the indices strictly. -/
def isRoleHigher (role1 role2 : String) : Bool :=
  let index1 := jsIndexOf ROLE_HIERARCHY role1
  let index2 := jsIndexOf ROLE_HIERARCHY role2
  if index1 = -1 ∨ index2 = -1 then false
  else decide (index1 > index2)

/-- Claim C8: for every pair of roles drawn from the hierarchy
`[Vendor, Employee, BranchManager, Admin]`, `isRoleHigher x y` returns true
exactly when `x`'s index in that list is strictly greater than `y`'s. -/
theorem isRoleHigher_iff_index_gt :
    ∀ x ∈ ROLE_HIERARCHY, ∀ y ∈ ROLE_HIERARCHY,
      (isRoleHigher x y = true ↔
        jsIndexOf ROLE_HIERARCHY x > jsIndexOf ROLE_HIERARCHY y) := by
  decide

theorem isRoleHigher_iff_index_gt_witness :
    "Admin" ∈ ROLE_HIERARCHY ∧ "Vendor" ∈ ROLE_HIERARCHY ∧
    (isRoleHigher "Admin" "Vendor" = true ↔
      jsIndexOf ROLE_HIERARCHY "Admin" > jsIndexOf ROLE_HIERARCHY "Vendor") :=
  ⟨by decide, by decide,
    isRoleHigher_iff_index_gt "Admin" (by decide) "Vendor" (by decide)⟩

/-- The authenticated principal supplied by the identity layer
(`src/middleware/auth.js` attaches `{userId, employeeId, designation}`). -/
structure User where
  userId : String
  employeeId : String
  designation : String
deriving DecidableEq, Repr

/-- An employee document (`src/models/Employee.js`), the fields authority
resolution reads: id fields, role designation, optional manager reference. -/
structure Employee where
  userId : String
  name : String
  designation : String
  manager : Option String
deriving DecidableEq, Repr

/-- `isManager(user, employee)` from `src/handles/permissions.js` lines
82–98: false when either argument is missing; true when the user's
designation is `Admin` (Admin manages everyone); otherwise true exactly when
the employee has a `manager` reference equal to the user's employee id. -/
def isManager (user : Option User) (employee : Option Employee) : Bool :=
  match user, employee with
  | none, _ => false
  | _, none => false
  | some u, some e =>
    if u.designation = "Admin" then true
    else
      match e.manager with
      | some m => decide (m = u.employeeId)
      | none => false

/-- The three members of `transactionSchema.status`'s enum. -/
inductive TxStatus where
  | pending
  | approved
  | rejected
deriving DecidableEq, Repr

/-- The embedded `debitAccount` / `creditAccount` subdocument of
`transactionSchema`: a type tag and the referenced account's id. -/
structure AccountRef where
  accountType : String
  accountId : String
deriving DecidableEq, Repr

/-- The embedded `reference` subdocument of `transactionSchema`: the
originating entity (`employee`/`branch`/`vendor`) and its id. -/
structure TxReference where
  refType : String
  refId : String
deriving DecidableEq, Repr

/-- A calendar date, standing in for the calendar fields the source reads
off a JavaScript `Date` (`createdAt`). -/
structure CalDate where
  year : Int
  month : Int
  day : Int
deriving DecidableEq, Repr

/-- A transaction document (`src/models/Transaction.js`): id, positive
amount, semantic type string, the two account references, originating
reference, description, approval status, approver, optional linked leg,
free-form metadata (an ordered key/value record), timestamps. -/
structure Transaction where
  transactionId : String
  amount : Int
  type : String
  debitAccount : AccountRef
  creditAccount : AccountRef
  reference : TxReference
  description : String
  status : TxStatus
  approvedBy : Option String
  linkedTransaction : Option String
  metadata : List (String × String)
  createdAt : CalDate
  updatedAt : Nat
deriving DecidableEq, Repr

/-- JavaScript object spread `{ ...m, k: v }` on a string-keyed record: the
existing entry for `k` keeps its position with the new value, otherwise the
pair is appended. -/
def setMeta : List (String × String) → String → String → List (String × String)
  | [], k, v => [(k, v)]
  | (k', v') :: rest, k, v =>
    if k' = k then (k, v) :: rest else (k', v') :: setMeta rest k v

/-- Lookup in a string-keyed record. -/
def getMeta : List (String × String) → String → Option String
  | [], _ => none
  | (k', v') :: rest, k => if k' = k then some v' else getMeta rest k

/-- `transactionSchema.methods.approve(approverId)` from
`src/models/Transaction.js` lines 181–188: set `status` to `approved`,
record the approver, refresh `updatedAt`, save. The method itself performs
no status guard and touches no account. -/
def Transaction.approveMethod (tx : Transaction) (approverId : String)
    (now : Nat) : Transaction :=
  { tx with
    status := TxStatus.approved
    approvedBy := some approverId
    updatedAt := now }

/-- `transactionSchema.methods.reject(approverId, reason)` from
`src/models/Transaction.js` lines 196–206: set `status` to `rejected`,
record the approver, merge `rejectionReason` into `metadata` via object
spread, refresh `updatedAt`, save. No status guard, no account access. -/
def Transaction.rejectMethod (tx : Transaction) (approverId : String)
    (reason : String) (now : Nat) : Transaction :=
  { tx with
    status := TxStatus.rejected
    approvedBy := some approverId
    metadata := setMeta tx.metadata "rejectionReason" reason
    updatedAt := now }

/-- A persisted collection: an association list from document id to
document, mirroring per-id `findById` / save round-trips. -/
abbrev Store (α : Type) : Type := List (String × α)

/-- `findById`: the first document stored under the id, if any. -/
def storeGet {α : Type} : Store α → String → Option α
  | [], _ => none
  | (k, v) :: rest, id => if k = id then some v else storeGet rest id

/-- Saving a loaded document back: replace the entry stored under the id in
place (ids absent from the store are left unchanged, matching a save of a
document that was found there). -/
def storeSet {α : Type} : Store α → String → α → Store α
  | [], _, _ => []
  | (k, v) :: rest, id, v' =>
    if k = id then (k, v') :: rest else (k, v) :: storeSet rest id v'

theorem storeGet_storeSet_self {α : Type} (s : Store α) (id : String)
    (v w : α) (h : storeGet s id = some v) :
    storeGet (storeSet s id w) id = some w := by
  induction s with
  | nil => simp [storeGet] at h
  | cons p rest ih =>
    by_cases hk : p.1 = id
    · simp [storeGet, storeSet, hk]
    · simp [storeGet, storeSet, hk] at h ⊢
      exact ih h

theorem storeGet_storeSet_other {α : Type} (s : Store α) (id id' : String)
    (w : α) (h : id ≠ id') :
    storeGet (storeSet s id' w) id = storeGet s id := by
  induction s with
  | nil => simp [storeSet]
  | cons p rest ih =>
    have h' : id' ≠ id := fun he => h he.symm
    by_cases hk : p.1 = id'
    · simp [storeGet, storeSet, hk, h']
    · simp [storeGet, storeSet, hk, ih]

/-- Errors of `src/handles/errors.js`, as kinds (messages elided). -/
inductive LedgerError where
  | validation
  | authorization
  | notFound
  | conflict
  | database
deriving DecidableEq, Repr

/-- The state the approval workflow acts on: the account collection, the
employee directory, and the transaction being decided. -/
structure EngineState where
  accounts : Store Account
  employees : Store Employee
  tx : Transaction
deriving Repr

/-- Modelled from the spec: `canApprove(approverId, transactionId)` of the
planned `src/utils/approvalWorkflow.js` is absent from the source tree
(plan §5.4 lists it; no implementation exists). Per spec §4.3 it resolves
the transaction's originating employee via its `reference`, then returns
true if the approver holds the Admin role or is that employee's immediate
manager — i.e. it defers to `isManager`, which is embedded from
`src/handles/permissions.js`. A transaction whose reference does not
resolve denies every principal. -/
def canApprove (u : User) (tx : Transaction) (employees : Store Employee) :
    Bool :=
  match storeGet employees tx.reference.refId with
  | some e => isManager (some u) (some e)
  | none => false

/-- Modelled from the spec: engine-level
`approve(transactionId, approverId)` (spec §4.2; planned as
`processApproval` in `src/utils/approvalWorkflow.js`, absent from the
source tree). It requires `status == pending` (otherwise `ConflictError`)
and approval authority (otherwise `AuthorizationError`), then applies one
posting per leg via the embedded `Account.updateBalance` — debit account
debited, credit account credited — and transitions the status via the
embedded `Transaction.approveMethod`. Accounts that fail to resolve give
`NotFoundError`. -/
def engineApprove (st : EngineState) (u : User) (now : Nat) :
    Except LedgerError EngineState :=
  if st.tx.status ≠ TxStatus.pending then
    Except.error LedgerError.conflict
  else if ¬ canApprove u st.tx st.employees then
    Except.error LedgerError.authorization
  else
    match storeGet st.accounts st.tx.debitAccount.accountId,
        storeGet st.accounts st.tx.creditAccount.accountId with
    | some da, some ca =>
      let da' := da.updateBalance st.tx.amount "debit" now
      let ca' := ca.updateBalance st.tx.amount "credit" now
      Except.ok
        { st with
          accounts :=
            storeSet (storeSet st.accounts st.tx.debitAccount.accountId da')
              st.tx.creditAccount.accountId ca'
          tx := st.tx.approveMethod u.employeeId now }
    | _, _ => Except.error LedgerError.notFound

/-- Modelled from the spec: engine-level
`reject(transactionId, approverId, reason)` (spec §4.2/§4.3; part of the
planned `processApproval`, absent from the source tree). It requires
`status == pending` and approval authority, stores the reason and
transitions the status via the embedded `Transaction.rejectMethod`, and
never touches balances. -/
def engineReject (st : EngineState) (u : User) (reason : String) (now : Nat) :
    Except LedgerError EngineState :=
  if st.tx.status ≠ TxStatus.pending then
    Except.error LedgerError.conflict
  else if ¬ canApprove u st.tx st.employees then
    Except.error LedgerError.authorization
  else
    Except.ok { st with tx := st.tx.rejectMethod u.employeeId reason now }

theorem getMeta_setMeta_self (m : List (String × String)) (k v : String) :
    getMeta (setMeta m k v) k = some v := by
  induction m with
  | nil => simp [setMeta, getMeta]
  | cons p rest ih =>
    by_cases h : p.1 = k <;> simp [setMeta, getMeta, h, ih]

/-- A concrete employee, manager principal and transaction used by the
witnesses below. -/
def sampleEmployee : Employee :=
  { userId := "U1", name := "Alice", designation := "Employee",
    manager := some "M1" }

def sampleManager : User :=
  { userId := "UM", employeeId := "M1", designation := "BranchManager" }

def sampleEmployees : Store Employee := [("E1", sampleEmployee)]

def sampleTx : Transaction :=
  { transactionId := "TX-1", amount := 25, type := "debit"
    debitAccount := { accountType := "asset", accountId := "A" }
    creditAccount := { accountType := "liability", accountId := "B" }
    reference := { refType := "employee", refId := "E1" }
    description := "team lunch", status := TxStatus.pending
    approvedBy := none, linkedTransaction := none, metadata := []
    createdAt := { year := 2024, month := 1, day := 15 }, updatedAt := 0 }

def sampleAccounts : Store Account :=
  [("A", Account.mk "1000" AccountType.asset 100 0),
   ("B", Account.mk "2000" AccountType.liability 50 0)]

/-- The engine state of the witnesses: the sample accounts and employee
directory with the sample transaction still pending. -/
def samplePendingState : EngineState :=
  EngineState.mk sampleAccounts sampleEmployees sampleTx

/-- The same state with the transaction already decided. -/
def sampleApprovedState : EngineState :=
  EngineState.mk sampleAccounts sampleEmployees
    { sampleTx with status := TxStatus.approved }

/-- Claim C6: approval authority (`canApprove`, deferring to the embedded
`isManager`) holds exactly when the approver is an Admin or the approver's
employee id equals the originating employee's immediate `manager`
reference, given that the transaction's `reference` resolves to that
employee; every other principal is denied. -/
theorem canApprove_iff_admin_or_manager (u : User) (tx : Transaction)
    (employees : Store Employee) (e : Employee)
    (he : storeGet employees tx.reference.refId = some e) :
    canApprove u tx employees = true ↔
      u.designation = "Admin" ∨ e.manager = some u.employeeId := by
  simp only [canApprove, he]
  by_cases hd : u.designation = "Admin"
  · simp [isManager, hd]
  · cases hm : e.manager with
    | none => simp [isManager, hd, hm]
    | some m => simp [isManager, hd, hm]

theorem canApprove_iff_admin_or_manager_witness :
    storeGet sampleEmployees sampleTx.reference.refId = some sampleEmployee ∧
    (canApprove sampleManager sampleTx sampleEmployees = true ↔
      sampleManager.designation = "Admin" ∨
        sampleEmployee.manager = some sampleManager.employeeId) :=
  ⟨by decide,
    canApprove_iff_admin_or_manager sampleManager sampleTx sampleEmployees
      sampleEmployee (by decide)⟩

/-- Claim C2: the engine-level approve on a transaction whose status is
already `approved` or already `rejected` fails with `ConflictError`. The
operation returns only the error — it constructs no successor state, so the
status, the approver field and every account balance are exactly as before
the failed call. -/
theorem approve_terminal_conflict (st : EngineState) (u : User) (now : Nat)
    (h : st.tx.status = TxStatus.approved ∨ st.tx.status = TxStatus.rejected) :
    engineApprove st u now = Except.error LedgerError.conflict := by
  rcases h with h | h <;> simp [engineApprove, h]

theorem approve_terminal_conflict_witness :
    (sampleApprovedState.tx.status = TxStatus.approved ∨
      sampleApprovedState.tx.status = TxStatus.rejected) ∧
    engineApprove sampleApprovedState sampleManager 3
      = Except.error LedgerError.conflict :=
  ⟨Or.inl rfl,
    approve_terminal_conflict sampleApprovedState sampleManager 3 (Or.inl rfl)⟩

/-- Claim C7: rejecting a pending transaction (with approval authority)
succeeds, sets the status to `rejected`, stores the reason in the
transaction's metadata under `rejectionReason`, and leaves the account
collection — hence both the debit and the credit account's stored
balances — exactly as before the call. -/
theorem reject_sets_reason_preserves_balances (st : EngineState) (u : User)
    (reason : String) (now : Nat)
    (hp : st.tx.status = TxStatus.pending)
    (hauth : canApprove u st.tx st.employees = true) :
    ∃ st', engineReject st u reason now = Except.ok st' ∧
      st'.accounts = st.accounts ∧
      st'.tx.status = TxStatus.rejected ∧
      getMeta st'.tx.metadata "rejectionReason" = some reason := by
  refine ⟨{ st with tx := st.tx.rejectMethod u.employeeId reason now },
    ?_, rfl, rfl, ?_⟩
  · simp [engineReject, hp, hauth]
  · exact getMeta_setMeta_self st.tx.metadata "rejectionReason" reason

theorem reject_sets_reason_preserves_balances_witness :
    samplePendingState.tx.status = TxStatus.pending ∧
    canApprove sampleManager samplePendingState.tx
        samplePendingState.employees = true ∧
    ∃ st', engineReject samplePendingState sampleManager "missing receipt" 4
        = Except.ok st' ∧
      st'.accounts = samplePendingState.accounts ∧
      st'.tx.status = TxStatus.rejected ∧
      getMeta st'.tx.metadata "rejectionReason" = some "missing receipt" :=
  ⟨rfl, by decide,
    reject_sets_reason_preserves_balances samplePendingState sampleManager
      "missing receipt" 4 rfl (by decide)⟩

/-- Claim C1: creating a transaction with debit account `A`, credit account
`B` and amount `n > 0` (a pending record, per the creation path) and then
approving it through the engine changes `A`'s stored balance by exactly the
signed effect of a debit of `n` and `B`'s by exactly the signed effect of a
credit of `n`, per each account's normal-balance-side rule, and transitions
the status to approved. -/
theorem approve_posts_normal_signed_effects
    (accounts : Store Account) (employees : Store Employee)
    (tx : Transaction) (u : User) (now : Nat) (A B : Account) (n : Int)
    (hn : 0 < n)
    (hneq : tx.debitAccount.accountId ≠ tx.creditAccount.accountId)
    (hst : tx.status = TxStatus.pending) (hamt : tx.amount = n)
    (hA : storeGet accounts tx.debitAccount.accountId = some A)
    (hB : storeGet accounts tx.creditAccount.accountId = some B)
    (hauth : canApprove u tx employees = true) :
    ∃ st', engineApprove ⟨accounts, employees, tx⟩ u now = Except.ok st' ∧
      (∃ A', storeGet st'.accounts tx.debitAccount.accountId = some A' ∧
        A'.balance
          = A.balance + normalSignedEffect A.accountType Direction.debit n) ∧
      (∃ B', storeGet st'.accounts tx.creditAccount.accountId = some B' ∧
        B'.balance
          = B.balance + normalSignedEffect B.accountType Direction.credit n) ∧
      st'.tx.status = TxStatus.approved := by
  refine ⟨EngineState.mk
      (storeSet
        (storeSet accounts tx.debitAccount.accountId
          (A.updateBalance tx.amount "debit" now))
        tx.creditAccount.accountId (B.updateBalance tx.amount "credit" now))
      employees (tx.approveMethod u.employeeId now),
    ?_, ?_, ?_, rfl⟩
  · simp [engineApprove, hst, hauth, hA, hB]
  · refine ⟨A.updateBalance tx.amount "debit" now, ?_, ?_⟩
    · rw [storeGet_storeSet_other _ _ _ _ hneq]
      exact storeGet_storeSet_self accounts tx.debitAccount.accountId A _ hA
    · have := updateBalance_eq_add_normalSignedEffect A n Direction.debit now
      simpa [Direction.toOperation, hamt] using this
  · refine ⟨B.updateBalance tx.amount "credit" now, ?_, ?_⟩
    · refine storeGet_storeSet_self _ _ B _ ?_
      rw [storeGet_storeSet_other _ _ _ _ (Ne.symm hneq)]
      exact hB
    · have := updateBalance_eq_add_normalSignedEffect B n Direction.credit now
      simpa [Direction.toOperation, hamt] using this

theorem approve_posts_normal_signed_effects_witness :
    ∃ st', engineApprove (EngineState.mk sampleAccounts sampleEmployees sampleTx)
        sampleManager 9 = Except.ok st' ∧
      (∃ A', storeGet st'.accounts sampleTx.debitAccount.accountId = some A' ∧
        A'.balance
          = (100 : Int) + normalSignedEffect AccountType.asset Direction.debit 25) ∧
      (∃ B', storeGet st'.accounts sampleTx.creditAccount.accountId = some B' ∧
        B'.balance
          = (50 : Int)
              + normalSignedEffect AccountType.liability Direction.credit 25) ∧
      st'.tx.status = TxStatus.approved :=
  approve_posts_normal_signed_effects sampleAccounts sampleEmployees sampleTx
    sampleManager 9 (Account.mk "1000" AccountType.asset 100 0)
    (Account.mk "2000" AccountType.liability 50 0) 25
    (by decide) (by decide) rfl rfl (by decide) (by decide) (by decide)

/-- One row of the `reconcileAccounts` report. -/
structure ReconRow where
  accountId : String
  accountCode : String
  recordedBalance : Int
  calculatedBalance : Int
  difference : Int
  reconciled : Bool
deriving DecidableEq, Repr

/-- The per-account body of `reconcileAccounts` from
`src/utils/doubleEntry.js` lines 117–152: select every transaction whose
debit or credit reference is the account, fold a balance that adds the
amount whenever the account is the debit side and subtracts it whenever it
is the credit side (two independent `if`s, so a transaction carrying the
account on both sides nets to zero), take `difference` as stored minus
calculated, and report `reconciled` as `difference === 0`. The account's
type is never consulted. -/
def reconcileAccount (accountId : String) (account : Account)
    (allTxs : List Transaction) : ReconRow :=
  let transactions := allTxs.filter fun tx =>
    tx.debitAccount.accountId == accountId
      || tx.creditAccount.accountId == accountId
  let calculatedBalance := transactions.foldl
    (fun acc tx =>
      let acc :=
        if tx.debitAccount.accountId = accountId then acc + tx.amount else acc
      if tx.creditAccount.accountId = accountId then acc - tx.amount else acc)
    0
  let difference := account.balance - calculatedBalance
  ReconRow.mk accountId account.accountCode account.balance calculatedBalance
    difference (difference == 0)

/-- `reconcileAccounts(accountIds)` from `src/utils/doubleEntry.js` lines
110–165: one row per resolvable account id (absent ids are skipped), plus
`allReconciled` as the conjunction of the rows' flags. -/
def reconcileAccounts (accountIds : List String) (accounts : Store Account)
    (allTxs : List Transaction) : List ReconRow × Bool :=
  let results := accountIds.foldr
    (fun id acc =>
      match storeGet accounts id with
      | some a => reconcileAccount id a allTxs :: acc
      | none => acc)
    []
  (results, results.all (·.reconciled))

/-- Stated from the spec (§4.5 together with §3's normal-balance rule): the
balance recomputed by summing the signed effect — per the account's
normal-balance side — of every historical transaction touching the
account: a debit of the amount where the account is the debit side, a
credit of the amount where it is the credit side. The comparison
definition for claim C4. -/
def specCalculatedBalance (t : AccountType) (accountId : String) :
    List Transaction → Int
  | [] => 0
  | tx :: rest =>
    (if tx.debitAccount.accountId = accountId then
        normalSignedEffect t Direction.debit tx.amount
      else 0)
    + (if tx.creditAccount.accountId = accountId then
        normalSignedEffect t Direction.credit tx.amount
      else 0)
    + specCalculatedBalance t accountId rest

/-- The sum `reconcileAccounts` actually computes, stated declaratively:
plus the amount where the account is the debit side and minus the amount
where it is the credit side, for every transaction and irrespective of the
account's type. -/
def assetConventionSum (accountId : String) : List Transaction → Int
  | [] => 0
  | tx :: rest =>
    (if tx.debitAccount.accountId = accountId then tx.amount else 0)
    - (if tx.creditAccount.accountId = accountId then tx.amount else 0)
    + assetConventionSum accountId rest

/-- A liability account and a transaction debiting it, on which the code's
reconciliation and the spec's normal-balance recomputation disagree. -/
def reconLiabilityAccount : Account :=
  Account.mk "2100" AccountType.liability (-5) 0

def reconDebitTx : Transaction :=
  { sampleTx with
    debitAccount := AccountRef.mk "liability" "L"
    creditAccount := AccountRef.mk "asset" "X"
    amount := 5 }

/-- Claim C4, counterexample: on the liability account `reconLiabilityAccount`
(stored balance `-5`) with the single historical transaction `reconDebitTx`
debiting it with amount `5`, the code reports `calculatedBalance = 5`
whereas the normal-balance-side rule gives `-5` (a debit decreases a
liability), so the reported value is not the spec's sum; moreover the
stored balance equals the spec's sum yet the code reports
`reconciled = false`, so `reconciled` does not hold exactly when the stored
balance equals that sum. -/
theorem reconcile_normal_balance_counterexample :
    (reconcileAccount "L" reconLiabilityAccount [reconDebitTx]).calculatedBalance
        = (5 : Int) ∧
    specCalculatedBalance AccountType.liability "L" [reconDebitTx] = (-5 : Int) ∧
    (reconcileAccount "L" reconLiabilityAccount [reconDebitTx]).calculatedBalance
        ≠ specCalculatedBalance AccountType.liability "L" [reconDebitTx] ∧
    ¬(((reconcileAccount "L" reconLiabilityAccount [reconDebitTx]).reconciled
          = true) ↔
        reconLiabilityAccount.balance
          = specCalculatedBalance AccountType.liability "L" [reconDebitTx]) := by
  refine ⟨by decide, by decide, by decide, ?_⟩
  intro h
  have := h.mpr (by decide)
  exact absurd this (by decide)

theorem reconcile_foldl_eq_assetConventionSum (accountId : String)
    (l : List Transaction) :
    ∀ acc : Int,
      ((l.filter fun tx =>
          tx.debitAccount.accountId == accountId
            || tx.creditAccount.accountId == accountId).foldl
        (fun acc tx =>
          let acc :=
            if tx.debitAccount.accountId = accountId then acc + tx.amount
            else acc
          if tx.creditAccount.accountId = accountId then acc - tx.amount
          else acc)
        acc)
      = acc + assetConventionSum accountId l := by
  induction l with
  | nil => intro acc; simp [assetConventionSum]
  | cons tx rest ih =>
    intro acc
    by_cases hd : tx.debitAccount.accountId = accountId <;>
      by_cases hc : tx.creditAccount.accountId = accountId <;>
        simp [List.filter_cons, hd, hc, assetConventionSum, ih] <;> ring

/-- Claim C4, amended: for every account and transaction history,
`reconcileAccounts` reports a `calculatedBalance` equal to the sum, over
all historical transactions touching the account, of plus the amount where
the account is the debit side and minus the amount where it is the credit
side — irrespective of the account's type, i.e. without applying the
normal-balance-side rule (the two agree only on asset/expense accounts) —
and reports `reconciled = true` exactly when the stored balance equals
that sum. -/
theorem reconcileAccount_asset_convention (accountId : String)
    (account : Account) (allTxs : List Transaction) :
    (reconcileAccount accountId account allTxs).calculatedBalance
        = assetConventionSum accountId allTxs ∧
    ((reconcileAccount accountId account allTxs).reconciled = true ↔
      account.balance = assetConventionSum accountId allTxs) := by
  have hc : (reconcileAccount accountId account allTxs).calculatedBalance
      = assetConventionSum accountId allTxs := by
    simpa [reconcileAccount] using
      reconcile_foldl_eq_assetConventionSum accountId allTxs 0
  refine ⟨hc, ?_⟩
  have hr : (reconcileAccount accountId account allTxs).reconciled
      = (account.balance
          - (reconcileAccount accountId account allTxs).calculatedBalance
          == 0) := by
    simp [reconcileAccount]
  rw [hr, hc]
  constructor
  · intro h
    have := beq_iff_eq.mp h
    omega
  · intro h
    exact beq_iff_eq.mpr (by omega)

/-- Civil date to days since the Unix epoch (the day-serial arithmetic a
JavaScript `Date` performs under `getDay` / `setDate`), via the standard
era/day-of-era decomposition. -/
def daysFromCivil (date : CalDate) : Int :=
  let y := date.year - (if date.month ≤ 2 then 1 else 0)
  let era := (if 0 ≤ y then y else y - 399) / 400
  let yoe := y - era * 400
  let mp := date.month + (if 2 < date.month then -3 else 9)
  let doy := (153 * mp + 2) / 5 + date.day - 1
  let doe := yoe * 365 + yoe / 4 - yoe / 100 + doy
  era * 146097 + doe - 719468

/-- The grouping key of `aggregateByPeriod` from `src/utils/ledger.js`
lines 85–102: for `"day"` the transaction's calendar date, for `"week"`
the date of the start of its week (`setDate(getDate() - getDay())`, i.e.
the preceding Sunday, rendered here through the day serial), for
`"month"` the year–month pair, and the calendar date again for any other
granularity string (the `default` arm). -/
def periodKey (period : String) (date : CalDate) : String :=
  match period with
  | "day" =>
    toString date.year ++ "-" ++ toString date.month ++ "-" ++ toString date.day
  | "week" =>
    let dn := daysFromCivil date
    let weekStart := dn - ((dn + 4) % 7)
    "W" ++ toString weekStart
  | "month" => toString date.year ++ "-" ++ toString date.month
  | _ =>
    toString date.year ++ "-" ++ toString date.month ++ "-" ++ toString date.day

/-- One bucket of the aggregation: the key, the running `totalAmount` and
`count`, and the grouped transactions. -/
structure Bucket where
  date : String
  totalAmount : Int
  count : Nat
  transactions : List Transaction
deriving Repr

/-- Adding one transaction to the keyed record `aggregated`: the bucket
stored under the key accumulates the amount, the count and the
transaction; a fresh key appends a new bucket (JavaScript objects keep
string keys in insertion order). -/
def addToBuckets : List Bucket → String → Transaction → List Bucket
  | [], key, t => [Bucket.mk key t.amount 1 [t]]
  | b :: rest, key, t =>
    if b.date = key then
      { b with
        totalAmount := b.totalAmount + t.amount
        count := b.count + 1
        transactions := b.transactions ++ [t] } :: rest
    else
      b :: addToBuckets rest key t

/-- Insertion into a key-sorted bucket list, for the final
`sort((a, b) => new Date(a.date) - new Date(b.date))`. -/
def insertByDate (b : Bucket) : List Bucket → List Bucket
  | [] => [b]
  | c :: rest =>
    if b.date < c.date then b :: c :: rest else c :: insertByDate b rest

/-- The chronological sort of the bucket list (an insertion sort; only
that it permutes the buckets matters to the sums below). -/
def sortByDate : List Bucket → List Bucket
  | [] => []
  | b :: rest => insertByDate b (sortByDate rest)

/-- `aggregateByPeriod(transactions, period)` from `src/utils/ledger.js`
lines 78–121: fold every transaction into the bucket of its period key,
then return the buckets sorted chronologically. -/
def aggregateByPeriod (transactions : List Transaction) (period : String) :
    List Bucket :=
  let aggregated := transactions.foldl
    (fun bs t => addToBuckets bs (periodKey period t.createdAt) t) []
  sortByDate aggregated

/-- The sum of the buckets' `count` fields. -/
def bucketCounts (bs : List Bucket) : Nat := (bs.map (·.count)).sum

/-- The sum of the buckets' `totalAmount` fields. -/
def bucketTotal (bs : List Bucket) : Int := (bs.map (·.totalAmount)).sum

theorem bucketCounts_addToBuckets (bs : List Bucket) (key : String)
    (t : Transaction) :
    bucketCounts (addToBuckets bs key t) = bucketCounts bs + 1 := by
  induction bs with
  | nil => simp [addToBuckets, bucketCounts]
  | cons b rest ih =>
    by_cases h : b.date = key <;>
      simp [addToBuckets, bucketCounts, h, ih] at * <;> omega

theorem bucketTotal_addToBuckets (bs : List Bucket) (key : String)
    (t : Transaction) :
    bucketTotal (addToBuckets bs key t) = bucketTotal bs + t.amount := by
  induction bs with
  | nil => simp [addToBuckets, bucketTotal]
  | cons b rest ih =>
    by_cases h : b.date = key <;>
      simp [addToBuckets, bucketTotal, h, ih] at * <;> omega

theorem bucketCounts_insertByDate (b : Bucket) (bs : List Bucket) :
    bucketCounts (insertByDate b bs) = b.count + bucketCounts bs := by
  induction bs with
  | nil => simp [insertByDate, bucketCounts]
  | cons c rest ih =>
    by_cases h : b.date < c.date <;>
      simp [insertByDate, bucketCounts, h, ih] at * <;> omega

theorem bucketTotal_insertByDate (b : Bucket) (bs : List Bucket) :
    bucketTotal (insertByDate b bs) = b.totalAmount + bucketTotal bs := by
  induction bs with
  | nil => simp [insertByDate, bucketTotal]
  | cons c rest ih =>
    by_cases h : b.date < c.date <;>
      simp [insertByDate, bucketTotal, h, ih] at * <;> omega

theorem bucketCounts_sortByDate (bs : List Bucket) :
    bucketCounts (sortByDate bs) = bucketCounts bs := by
  induction bs with
  | nil => rfl
  | cons b rest ih =>
    show bucketCounts (insertByDate b (sortByDate rest)) = bucketCounts (b :: rest)
    rw [bucketCounts_insertByDate, ih]
    simp [bucketCounts]

theorem bucketTotal_sortByDate (bs : List Bucket) :
    bucketTotal (sortByDate bs) = bucketTotal bs := by
  induction bs with
  | nil => rfl
  | cons b rest ih =>
    show bucketTotal (insertByDate b (sortByDate rest)) = bucketTotal (b :: rest)
    rw [bucketTotal_insertByDate, ih]
    simp [bucketTotal]

theorem bucketCounts_fold (period : String) (txs : List Transaction) :
    ∀ bs : List Bucket,
      bucketCounts (txs.foldl
        (fun bs t => addToBuckets bs (periodKey period t.createdAt) t) bs)
      = bucketCounts bs + txs.length := by
  induction txs with
  | nil => intro bs; simp
  | cons t rest ih =>
    intro bs
    simp [List.foldl_cons, ih, bucketCounts_addToBuckets]
    omega

theorem bucketTotal_fold (period : String) (txs : List Transaction) :
    ∀ bs : List Bucket,
      bucketTotal (txs.foldl
        (fun bs t => addToBuckets bs (periodKey period t.createdAt) t) bs)
      = bucketTotal bs + (txs.map (·.amount)).sum := by
  induction txs with
  | nil => intro bs; simp
  | cons t rest ih =>
    intro bs
    simp [List.foldl_cons, ih, bucketTotal_addToBuckets]
    ring

/-- Claim C9: for every list of transactions and every granularity
(any granularity string, so in particular `day`, `week` and `month`),
`aggregateByPeriod` partitions its input: the buckets' `count` fields sum
to the number of input transactions and their `totalAmount` fields sum to
the total of the input amounts. -/
theorem aggregateByPeriod_partition (txs : List Transaction)
    (period : String) :
    bucketCounts (aggregateByPeriod txs period) = txs.length ∧
    bucketTotal (aggregateByPeriod txs period) = (txs.map (·.amount)).sum := by
  constructor
  · simp only [aggregateByPeriod]
    rw [bucketCounts_sortByDate, bucketCounts_fold period txs []]
    simp [bucketCounts]
  · simp only [aggregateByPeriod]
    rw [bucketTotal_sortByDate, bucketTotal_fold period txs []]
    simp [bucketTotal]

end FinanceLedger
